import Mathlib

/-!
Verification development for the pcdsdevices repository: a shallow embedding
of the DCCM energy/Bragg-angle conversion pair (src/pcdsdevices/dccm.py) and
the LADM two-rail mechanism controller (src/pcdsdevices/ladm.py), with
theorems settling the specification claims about them.

Floating-point arithmetic in the source is modelled over the reals; the IEEE
NaN value that numpy returns for out-of-domain arcsin inputs is modelled as
the `none` case of an `Option`, and the sentinel results of the readback
functions are modelled with explicit inductive result types.
-/

namespace Pcds

/-! ### DCCM energy/angle conversion (src/pcdsdevices/dccm.py)

The module-level constant `si_111_dspacing` and the lattice spacing value
hardcoded locally inside the two conversion methods of `DCCMEnergy`.  Note
that the methods do not read the module constant: each assigns a local
`dspacing = 3.13560114`. -/

noncomputable def si_111_dspacing : ℝ := 3.1356011499587773

/-- The local lattice-spacing value assigned inside both
`DCCMEnergy.energyToSi111BraggAngle` and `DCCMEnergy.thetaToSi111energy`. -/
noncomputable def dspacing : ℝ := 3.13560114

/-- Embedding of `DCCMEnergy.energyToSi111BraggAngle`: computes
`np.rad2deg(np.arcsin(12398.419/energy/(2*dspacing)))`.  `np.arcsin`
returns the IEEE NaN value outside `[-1, 1]`, modelled here as `none`. -/
noncomputable def energyToSi111BraggAngle (energy : ℝ) : Option ℝ :=
  if -1 ≤ 12398.419 / energy / (2 * dspacing) ∧ 12398.419 / energy / (2 * dspacing) ≤ 1 then
    some (Real.arcsin (12398.419 / energy / (2 * dspacing)) * 180 / Real.pi)
  else
    none

/-- Embedding of `DCCMEnergy.thetaToSi111energy`: computes
`12398.419/(2*dspacing*np.sin(np.deg2rad(theta)))`. -/
noncomputable def thetaToSi111energy (theta : ℝ) : ℝ :=
  12398.419 / (2 * dspacing * Real.sin (theta * Real.pi / 180))

/-- C3: for energy in the valid domain the angle produced by the forward
conversion maps back to exactly the original energy, hence within the
1e-9 relative tolerance. -/
theorem energy_angle_roundtrip (e : ℝ) (he : 0 < e)
    (hlo : -1 ≤ 12398.419 / e / (2 * dspacing))
    (hhi : 12398.419 / e / (2 * dspacing) ≤ 1) :
    ∃ th, energyToSi111BraggAngle e = some th ∧ thetaToSi111energy th = e ∧
      |thetaToSi111energy th - e| ≤ 1e-9 * e := by
  refine ⟨Real.arcsin (12398.419 / e / (2 * dspacing)) * 180 / Real.pi, ?_, ?_, ?_⟩
  · rw [energyToSi111BraggAngle, if_pos ⟨hlo, hhi⟩]
  · have hπ : Real.pi ≠ 0 := Real.pi_ne_zero
    have harg : Real.arcsin (12398.419 / e / (2 * dspacing)) * 180 / Real.pi * Real.pi / 180
        = Real.arcsin (12398.419 / e / (2 * dspacing)) := by
      field_simp
    rw [thetaToSi111energy, harg, Real.sin_arcsin hlo hhi]
    have hd : dspacing ≠ 0 := by rw [dspacing]; norm_num
    have he' : e ≠ 0 := ne_of_gt he
    field_simp
    ring
  · have hπ : Real.pi ≠ 0 := Real.pi_ne_zero
    have harg : Real.arcsin (12398.419 / e / (2 * dspacing)) * 180 / Real.pi * Real.pi / 180
        = Real.arcsin (12398.419 / e / (2 * dspacing)) := by
      field_simp
    rw [thetaToSi111energy, harg, Real.sin_arcsin hlo hhi]
    have hd : dspacing ≠ 0 := by rw [dspacing]; norm_num
    have he' : e ≠ 0 := ne_of_gt he
    have hval : 12398.419 / (2 * dspacing * (12398.419 / e / (2 * dspacing))) = e := by
      field_simp
      ring
    rw [hval, sub_self, abs_zero]
    positivity

/-- C3 witness: the round trip at energy 2000 (the asin argument is about
0.9886, inside the domain). -/
theorem energy_angle_roundtrip_witness :
    (0 : ℝ) < 2000 ∧
    ∃ th, energyToSi111BraggAngle 2000 = some th ∧ thetaToSi111energy th = 2000 ∧
      |thetaToSi111energy th - 2000| ≤ 1e-9 * 2000 := by
  refine ⟨by norm_num, energy_angle_roundtrip 2000 (by norm_num) ?_ ?_⟩
  · rw [dspacing]; norm_num
  · rw [dspacing]; norm_num

/-- C7 counterexample: at energy 1000 the asin argument is about 1.977,
outside `[-1, 1]`; numpy's arcsin then yields the NaN value (modelled as
`none`): the conversion returns this quiet NaN result instead of raising a
domain error. -/
theorem energyToSi111BraggAngle_out_of_domain_nan :
    energyToSi111BraggAngle 1000 = none := by
  rw [energyToSi111BraggAngle, if_neg]
  rw [dspacing]
  intro h
  have := h.2
  norm_num at this

/-- C7 amended: for every energy whose asin argument falls outside
`[-1, 1]`, the conversion returns the NaN sentinel (no exception is raised
and no clamped angle is produced). -/
theorem energyToSi111BraggAngle_out_of_domain (e : ℝ)
    (h : 12398.419 / e / (2 * dspacing) < -1 ∨ 1 < 12398.419 / e / (2 * dspacing)) :
    energyToSi111BraggAngle e = none := by
  rw [energyToSi111BraggAngle, if_neg]
  rcases h with h | h
  · intro hc
    exact absurd hc.1 (not_le.mpr h)
  · intro hc
    exact absurd hc.2 (not_le.mpr h)

/-- C7 amended witness: energy 1000 has asin argument greater than 1 and the
conversion returns the NaN sentinel there. -/
theorem energyToSi111BraggAngle_out_of_domain_witness :
    1 < 12398.419 / 1000 / (2 * dspacing) ∧ energyToSi111BraggAngle 1000 = none := by
  have h : 1 < 12398.419 / 1000 / (2 * dspacing) := by rw [dspacing]; norm_num
  exact ⟨h, energyToSi111BraggAngle_out_of_domain 1000 (Or.inr h)⟩

/-- C9 counterexample: at theta = 30 degrees (where sin is exactly 1/2) the
angle-to-energy conversion does not agree with the formula evaluated at the
module default lattice spacing 3.1356011499587773, because the method bodies
hardcode the truncated value 3.13560114. -/
theorem thetaToSi111energy_not_default_dspacing :
    thetaToSi111energy 30 ≠ 12398.419 / (2 * si_111_dspacing * Real.sin (30 * Real.pi / 180)) := by
  have h6 : (30 : ℝ) * Real.pi / 180 = Real.pi / 6 := by ring
  rw [thetaToSi111energy, h6, Real.sin_pi_div_six, dspacing, si_111_dspacing]
  norm_num

/-- C9 amended: the module-level default constant is 3.1356011499587773, but
both conversion directions compute with the locally hardcoded spacing
3.13560114, a different number. -/
theorem conversions_use_truncated_dspacing :
    si_111_dspacing = 3.1356011499587773 ∧ dspacing = 3.13560114 ∧
    dspacing ≠ si_111_dspacing ∧
    (∀ th : ℝ, thetaToSi111energy th
      = 12398.419 / (2 * (3.13560114 : ℝ) * Real.sin (th * Real.pi / 180))) ∧
    thetaToSi111energy 30 = 12398.419 / 3.13560114 := by
  refine ⟨rfl, rfl, ?_, fun th => rfl, ?_⟩
  · rw [dspacing, si_111_dspacing]; norm_num
  · have h6 : (30 : ℝ) * Real.pi / 180 = Real.pi / 6 := by ring
    rw [thetaToSi111energy, h6, Real.sin_pi_div_six, dspacing]
    norm_num

/-! ### LADM two-rail mechanism geometry (src/pcdsdevices/ladm.py)

Module-level constants: the rail angle `alpha_r` (63 degrees in radians),
the two rail radii `r` and `R`, and `alpha_cos = cos(27 degrees)`. -/

noncomputable def alpha_r : ℝ := 63 * Real.pi / 180

noncomputable def r : ℝ := 2960.0

noncomputable def R : ℝ := 6735.0

noncomputable def alpha_cos : ℝ := Real.cos (27 * Real.pi / 180)

/-- Embedding of `ThetaToMotors(theta, samz_offset=0)`: converts theta in
degrees to the two rail positions and the relative depth offset.  The
`samz_offset` parameter is accepted and ignored exactly as in the source.
The guard `if theta == 0: dz = 0` becomes the conditional on `th = 0`. -/
noncomputable def ThetaToMotors (theta samz_offset : ℝ) : ℝ × ℝ × ℝ :=
  let th := theta * Real.pi / 180
  let x1 := r * Real.sin th / (Real.sin alpha_r * Real.sin (alpha_r + th))
  let x2 := R * Real.sin th / (Real.sin alpha_r * Real.sin (alpha_r + th))
  let dz0 := r / Real.sin alpha_r - x1 * Real.sin alpha_r / Real.sin th
  let dz := if th = 0 then 0 else dz0
  (x1, x2, dz)

/-- Embedding of `x1ToTheta(x1, samz_offset=0)`. -/
noncomputable def x1ToTheta (x1 samz_offset : ℝ) : ℝ :=
  Real.arctan (x1 * Real.sin alpha_r ^ 2 /
    (r - samz_offset * alpha_cos - x1 * Real.sin (2 * alpha_r) / 2)) * 180 / Real.pi

/-- Embedding of `x2ToTheta(x2, samz_offset=0)`. -/
noncomputable def x2ToTheta (x2 samz_offset : ℝ) : ℝ :=
  Real.arctan (x2 * Real.sin alpha_r ^ 2 /
    (R - samz_offset * alpha_cos - x2 * Real.sin (2 * alpha_r) / 2)) * 180 / Real.pi

theorem ThetaToMotors_x1 (θ s : ℝ) :
    (ThetaToMotors θ s).1
      = r * Real.sin (θ * Real.pi / 180) /
        (Real.sin alpha_r * Real.sin (alpha_r + θ * Real.pi / 180)) := rfl

theorem ThetaToMotors_x2 (θ s : ℝ) :
    (ThetaToMotors θ s).2.1
      = R * Real.sin (θ * Real.pi / 180) /
        (Real.sin alpha_r * Real.sin (alpha_r + θ * Real.pi / 180)) := rfl

/-- Shared evaluation of `ThetaToMotors` at theta = 0. -/
theorem ThetaToMotors_at_zero : ThetaToMotors 0 0 = (0, 0, 0) := by
  simp [ThetaToMotors]

/-- C6: at theta = 0 both rail targets are exactly 0 and dz is forced to 0
by the guard, so the tan(0)/division-by-zero degeneracy never escapes. -/
theorem ThetaToMotors_zero_exact : ThetaToMotors 0 0 = (0, 0, 0) := by
  simp [ThetaToMotors]

/-- Core algebraic identity behind the theta round trip: for a rail of
radius rho and 0 < theta < 90 degrees, the inverse arctangent expression
applied to the forward rail position recovers theta exactly. -/
theorem rail_arctan_roundtrip (ρ θ : ℝ) (hρ : 0 < ρ) (h0 : 0 < θ) (h90 : θ < 90) :
    Real.arctan (ρ * Real.sin (θ * Real.pi / 180) /
        (Real.sin alpha_r * Real.sin (alpha_r + θ * Real.pi / 180)) * Real.sin alpha_r ^ 2 /
      (ρ - 0 * alpha_cos -
        ρ * Real.sin (θ * Real.pi / 180) /
          (Real.sin alpha_r * Real.sin (alpha_r + θ * Real.pi / 180))
          * Real.sin (2 * alpha_r) / 2))
      * 180 / Real.pi = θ := by
  have hπ : (0 : ℝ) < Real.pi := Real.pi_pos
  set t := θ * Real.pi / 180 with ht
  have hθπ : 0 < θ * Real.pi := mul_pos h0 hπ
  have ht0 : 0 < t := by rw [ht]; linarith
  have ht2 : t < Real.pi / 2 := by rw [ht]; nlinarith
  have hα0 : 0 < alpha_r := by rw [alpha_r]; positivity
  have hαπ : alpha_r < Real.pi := by rw [alpha_r]; linarith
  have hsa : 0 < Real.sin alpha_r := Real.sin_pos_of_pos_of_lt_pi hα0 hαπ
  have hsum0 : 0 < alpha_r + t := by linarith
  have hsumπ : alpha_r + t < Real.pi := by rw [alpha_r, ht]; nlinarith
  have hs : 0 < Real.sin (alpha_r + t) := Real.sin_pos_of_pos_of_lt_pi hsum0 hsumπ
  have hct : 0 < Real.cos t := Real.cos_pos_of_mem_Ioo ⟨by linarith, ht2⟩
  have hsa' : Real.sin alpha_r ≠ 0 := ne_of_gt hsa
  have hs' : Real.sin (alpha_r + t) ≠ 0 := ne_of_gt hs
  have hct' : Real.cos t ≠ 0 := ne_of_gt hct
  have hρ' : ρ ≠ 0 := ne_of_gt hρ
  have hadd : Real.sin (alpha_r + t)
      = Real.sin alpha_r * Real.cos t + Real.cos alpha_r * Real.sin t := Real.sin_add alpha_r t
  have h2α : Real.sin (2 * alpha_r) = 2 * Real.sin alpha_r * Real.cos alpha_r :=
    Real.sin_two_mul alpha_r
  have hD : ρ - 0 * alpha_cos -
      ρ * Real.sin t / (Real.sin alpha_r * Real.sin (alpha_r + t)) * Real.sin (2 * alpha_r) / 2
      = ρ * Real.sin alpha_r * Real.cos t / Real.sin (alpha_r + t) := by
    rw [h2α]
    field_simp
    rw [hadd]
    ring
  have hN : ρ * Real.sin t / (Real.sin alpha_r * Real.sin (alpha_r + t)) * Real.sin alpha_r ^ 2
      = ρ * Real.sin t * Real.sin alpha_r / Real.sin (alpha_r + t) := by
    field_simp
    ring
  rw [hN, hD]
  have harg : ρ * Real.sin t * Real.sin alpha_r / Real.sin (alpha_r + t) /
      (ρ * Real.sin alpha_r * Real.cos t / Real.sin (alpha_r + t)) = Real.tan t := by
    rw [Real.tan_eq_sin_div_cos]
    field_simp
    ring
  rw [harg, Real.arctan_tan (by linarith) ht2, ht]
  field_simp

/-- Round trip through the short rail: exact recovery of theta. -/
theorem x1ToTheta_ThetaToMotors (θ : ℝ) (h0 : 0 < θ) (h90 : θ < 90) :
    x1ToTheta (ThetaToMotors θ 0).1 0 = θ := by
  rw [ThetaToMotors_x1]
  simp only [x1ToTheta]
  exact rail_arctan_roundtrip r θ (by rw [r]; norm_num) h0 h90

/-- Round trip through the long rail: exact recovery of theta. -/
theorem x2ToTheta_ThetaToMotors (θ : ℝ) (h0 : 0 < θ) (h90 : θ < 90) :
    x2ToTheta (ThetaToMotors θ 0).2.1 0 = θ := by
  rw [ThetaToMotors_x2]
  simp only [x2ToTheta]
  exact rail_arctan_roundtrip R θ (by rw [R]; norm_num) h0 h90

/-- C4: for theta in {5, 10, 27, 45} degrees, converting to rail positions
and inverting each rail independently (sample offset 0) recovers theta
within 0.01 degrees for both rails (here: exactly). -/
theorem rail_roundtrip_representative (θ : ℝ) (h : θ = 5 ∨ θ = 10 ∨ θ = 27 ∨ θ = 45) :
    |x1ToTheta (ThetaToMotors θ 0).1 0 - θ| ≤ 0.01 ∧
    |x2ToTheta (ThetaToMotors θ 0).2.1 0 - θ| ≤ 0.01 := by
  have h0 : 0 < θ := by rcases h with rfl | rfl | rfl | rfl <;> norm_num
  have h90 : θ < 90 := by rcases h with rfl | rfl | rfl | rfl <;> norm_num
  rw [x1ToTheta_ThetaToMotors θ h0 h90, x2ToTheta_ThetaToMotors θ h0 h90, sub_self, abs_zero]
  norm_num

/-- C4 witness: the round trip at theta = 5 degrees. -/
theorem rail_roundtrip_representative_witness :
    ((5 : ℝ) = 5 ∨ (5 : ℝ) = 10 ∨ (5 : ℝ) = 27 ∨ (5 : ℝ) = 45) ∧
    |x1ToTheta (ThetaToMotors 5 0).1 0 - 5| ≤ 0.01 ∧
    |x2ToTheta (ThetaToMotors 5 0).2.1 0 - 5| ≤ 0.01 :=
  ⟨Or.inl rfl, rail_roundtrip_representative 5 (Or.inl rfl)⟩

/-! ### LADM sequencing and readback behaviour

The imperative methods of the `LADM` class are embedded as functions from
their numeric inputs (and the relevant current motor positions) to the
sequence of axis commands they issue, in issue order. -/

/-- Axis commands issued by `LADM.__theta_movement` (`mv` calls with their
targets and blocking `wait` calls, in issue order).  `waitAll` expands to
the waits of `LADM.waitAll` (z, x1, x2). -/
inductive AxisCmd
  | mvZ (target : ℝ)
  | mvX1 (target : ℝ)
  | mvX2 (target : ℝ)
  | waitZ
  | waitX1
  | waitX2

/-- Embedding of `LADM.waitAll`: waits on z, then x1, then x2. -/
def waitAll : List AxisCmd := [AxisCmd.waitZ, AxisCmd.waitX1, AxisCmd.waitX2]

/-- Embedding of `LADM.__theta_movement(theta, samz_offset)`: the command
sequence issued, as a function of the target theta, the sample offset, and
the current z position `z_now` (the value `self.z.wm()` returns). -/
noncomputable def thetaMovement (theta samz_offset z_now : ℝ) : List AxisCmd :=
  let x1_var := (ThetaToMotors theta samz_offset).1
  let x2_var := (ThetaToMotors theta samz_offset).2.1
  let z_var := (ThetaToMotors theta samz_offset).2.2
  if z_now < z_var then
    [AxisCmd.mvZ z_var, AxisCmd.waitZ, AxisCmd.mvX1 x1_var, AxisCmd.mvX2 x2_var] ++ waitAll
  else
    [AxisCmd.mvX1 x1_var, AxisCmd.mvX2 x2_var, AxisCmd.waitX1, AxisCmd.waitX2,
     AxisCmd.mvZ z_var] ++ waitAll

/-- C1: when the required z exceeds the current z, the z move and its wait
are issued before the x1/x2 moves; when the required z is less than or
equal to the current z, the x1/x2 moves and both their waits are issued
before the z move. -/
theorem thetaMovement_sequencing (theta samz_offset z_now : ℝ) :
    (z_now < (ThetaToMotors theta samz_offset).2.2 →
      thetaMovement theta samz_offset z_now =
        [AxisCmd.mvZ (ThetaToMotors theta samz_offset).2.2, AxisCmd.waitZ,
         AxisCmd.mvX1 (ThetaToMotors theta samz_offset).1,
         AxisCmd.mvX2 (ThetaToMotors theta samz_offset).2.1,
         AxisCmd.waitZ, AxisCmd.waitX1, AxisCmd.waitX2]) ∧
    ((ThetaToMotors theta samz_offset).2.2 ≤ z_now →
      thetaMovement theta samz_offset z_now =
        [AxisCmd.mvX1 (ThetaToMotors theta samz_offset).1,
         AxisCmd.mvX2 (ThetaToMotors theta samz_offset).2.1,
         AxisCmd.waitX1, AxisCmd.waitX2,
         AxisCmd.mvZ (ThetaToMotors theta samz_offset).2.2,
         AxisCmd.waitZ, AxisCmd.waitX1, AxisCmd.waitX2]) := by
  constructor
  · intro h
    rw [thetaMovement]
    simp only [if_pos h, waitAll]
    rfl
  · intro h
    rw [thetaMovement]
    simp only [if_neg (not_lt.mpr h), waitAll]
    rfl

/-- C1 witness: both branches at theta = 0 (so all targets are 0), with
current z below and above the required z respectively. -/
theorem thetaMovement_sequencing_witness :
    thetaMovement 0 0 (-1) =
      [AxisCmd.mvZ 0, AxisCmd.waitZ, AxisCmd.mvX1 0, AxisCmd.mvX2 0,
       AxisCmd.waitZ, AxisCmd.waitX1, AxisCmd.waitX2] ∧
    thetaMovement 0 0 1 =
      [AxisCmd.mvX1 0, AxisCmd.mvX2 0, AxisCmd.waitX1, AxisCmd.waitX2,
       AxisCmd.mvZ 0, AxisCmd.waitZ, AxisCmd.waitX1, AxisCmd.waitX2] := by
  have hz : ThetaToMotors 0 0 = (0, 0, 0) := ThetaToMotors_at_zero
  constructor
  · have h := (thetaMovement_sequencing 0 0 (-1)).1
    rw [hz] at h
    exact h (by norm_num)
  · have h := (thetaMovement_sequencing 0 0 1).2
    rw [hz] at h
    exact h (by norm_num)

/-- Steps performed by `LADM.moveTheta` for a defined current theta: either
a direct sequenced sub-move, or two sub-moves with a full settling wait
between them. -/
inductive ThetaAction
  | subMove (target samz_offset : ℝ)
  | settle

/-- Embedding of `LADM.moveTheta(theta, samz_offset)` for the branch where
the current theta readback `theta_now` is defined (not NaN; the NaN branch
only prints a message and performs no sub-move, modelled as `none`). -/
noncomputable def moveTheta (theta : ℝ) (theta_now : Option ℝ) (samz_offset : ℝ) :
    List ThetaAction :=
  match theta_now with
  | none => []
  | some tn =>
    if |theta - tn| ≤ 28 then
      [ThetaAction.subMove theta samz_offset]
    else
      [ThetaAction.subMove ((theta + tn) / 2) samz_offset, ThetaAction.settle,
       ThetaAction.subMove theta samz_offset]

/-- C2: with a defined current theta, a request within 28 degrees performs
exactly one sequenced sub-move to theta; beyond 28 degrees it performs two
sub-moves, first to the midpoint with a settling wait, then to theta; and
for a total change of 40 degrees each sub-move changes the angle by at most
28 degrees. -/
theorem moveTheta_split (theta tn samz_offset : ℝ) :
    (|theta - tn| ≤ 28 →
      moveTheta theta (some tn) samz_offset = [ThetaAction.subMove theta samz_offset]) ∧
    (28 < |theta - tn| →
      moveTheta theta (some tn) samz_offset =
        [ThetaAction.subMove ((theta + tn) / 2) samz_offset, ThetaAction.settle,
         ThetaAction.subMove theta samz_offset]) ∧
    (|theta - tn| = 40 →
      |(theta + tn) / 2 - tn| ≤ 28 ∧ |theta - (theta + tn) / 2| ≤ 28) := by
  refine ⟨fun h => ?_, fun h => ?_, fun h => ?_⟩
  · rw [moveTheta]
    simp only [if_pos h]
  · rw [moveTheta]
    simp only [if_neg (not_le.mpr h)]
  · have h1 : (theta + tn) / 2 - tn = (theta - tn) / 2 := by ring
    have h2 : theta - (theta + tn) / 2 = (theta - tn) / 2 := by ring
    rw [h1, h2, abs_div, h]
    norm_num

/-- C2 witness: current theta 0, target 40: the midpoint sub-move to 20 is
issued, then a settle, then the sub-move to 40, each step of 20 degrees. -/
theorem moveTheta_split_witness :
    moveTheta 40 (some 0) 0 =
      [ThetaAction.subMove 20 0, ThetaAction.settle, ThetaAction.subMove 40 0] ∧
    |(40 : ℝ) - 0| = 40 ∧
    |((40 : ℝ) + 0) / 2 - 0| ≤ 28 ∧ |(40 : ℝ) - (40 + 0) / 2| ≤ 28 := by
  have h := moveTheta_split 40 0 0
  have h2 := h.2.1 (by norm_num)
  have h3 := h.2.2 (by norm_num)
  refine ⟨?_, by norm_num, h3⟩
  rw [h2]
  norm_num

/-- Result of `LADM.wmTheta`: a defined angle (from x1), the NaN sentinel
for an ambiguous readback, or the 4-tuple returned when a positive sample-z
offset is supplied. -/
inductive WmTheta
  | value (theta1 : ℝ)
  | nanResult
  | offsetInfo (theta1 theta2 samz_offset ca_samz_offset : ℝ)

/-- Embedding of `LADM.wmTheta(samz_offset)` as a function of the current
rail positions `x1pos`, `x2pos` and the supplied offset. -/
noncomputable def wmTheta (x1pos x2pos samz_offset : ℝ) : WmTheta :=
  let theta1 := x1ToTheta x1pos samz_offset
  let theta2 := x2ToTheta x2pos samz_offset
  let tolerance : ℝ := 0.01
  if 0 < samz_offset then
    let thetar := Real.arctan ((x2pos - x1pos) / (R - r))
    let ca := -(x1pos * Real.sin alpha_r ^ 2 / Real.tan thetar - r +
                x1pos * Real.sin (2 * alpha_r) / 2) / alpha_cos
    WmTheta.offsetInfo theta1 theta2 samz_offset ca
  else if |theta1 - theta2| < tolerance then
    WmTheta.value theta1
  else
    WmTheta.nanResult

/-- C5: with a sample-z offset not greater than 0, the theta readback
returns the angle derived from x1 exactly when the two independently
derived angles agree within 0.01 degrees, and the NaN sentinel otherwise;
it never averages the two angles. -/
theorem wmTheta_agreement (x1pos x2pos samz_offset : ℝ) (hsamz : samz_offset ≤ 0) :
    (|x1ToTheta x1pos samz_offset - x2ToTheta x2pos samz_offset| < 0.01 →
      wmTheta x1pos x2pos samz_offset = WmTheta.value (x1ToTheta x1pos samz_offset)) ∧
    (0.01 ≤ |x1ToTheta x1pos samz_offset - x2ToTheta x2pos samz_offset| →
      wmTheta x1pos x2pos samz_offset = WmTheta.nanResult) := by
  constructor
  · intro h
    rw [wmTheta]
    simp only [if_neg (not_lt.mpr hsamz), if_pos h]
  · intro h
    rw [wmTheta]
    simp only [if_neg (not_lt.mpr hsamz), if_neg (not_lt.mpr h)]

/-- C5 witness: both rails at position 0 with offset 0 give agreeing angles
(both 0), so the readback is the defined value 0. -/
theorem wmTheta_agreement_witness :
    (0 : ℝ) ≤ 0 ∧ wmTheta 0 0 0 = WmTheta.value 0 := by
  have h0 : x1ToTheta 0 0 = 0 := by
    simp [x1ToTheta]
  have h0' : x2ToTheta 0 0 = 0 := by
    simp [x2ToTheta]
  have h := (wmTheta_agreement 0 0 0 le_rfl).1
  rw [h0, h0'] at h
  have hres := h (by norm_num)
  exact ⟨le_rfl, hres⟩

/-- Embedding of `xTox12`. -/
noncomputable def xTox12 (x : ℝ) : ℝ := x / Real.sin alpha_r

/-- Embedding of `xToz`. -/
noncomputable def xToz (x : ℝ) : ℝ := x / Real.tan alpha_r

/-- Commands issued by the horizontal-move methods `LADM.moveX` and
`LADM.tweakH`: absolute moves, relative moves, waits, and the logged
refusal `moveX` emits when the target is outside the soft limits. -/
inductive HCmd
  | logRefusal
  | mvZ (target : ℝ)
  | mvX1 (target : ℝ)
  | mvX2 (target : ℝ)
  | mvrZ (delta : ℝ)
  | mvrX1 (delta : ℝ)
  | mvrX2 (delta : ℝ)
  | waitZ
  | waitX1
  | waitX2

/-- Whether a command moves hardware (a `mv` or `mvr` call, as opposed to a
wait or the logged refusal). -/
def isMoveCmd : HCmd → Bool
  | HCmd.logRefusal => false
  | HCmd.waitZ => false
  | HCmd.waitX1 => false
  | HCmd.waitX2 => false
  | _ => true

/-- Embedding of `LADM.moveX(x)` as the command sequence issued, given the
cached soft limits and the current z position.  If `x <= lowlimX` or
`x >= hilimX` only the debug-log refusal happens; otherwise the axis moves
are sequenced by comparing the required z with the current z (note the
source omits the z move in the second branch). -/
noncomputable def moveX (x lowlimX hilimX z_now : ℝ) : List HCmd :=
  if x ≤ lowlimX ∨ hilimX ≤ x then
    [HCmd.logRefusal]
  else
    let x1_var := xTox12 x
    let x2_var := x1_var
    let z_var := xToz x
    if z_now < z_var then
      [HCmd.mvZ z_var, HCmd.waitZ, HCmd.mvX1 x1_var, HCmd.mvX2 x2_var]
    else
      [HCmd.mvX1 x1_var, HCmd.mvX2 x2_var, HCmd.waitX1, HCmd.waitX2]

/-- Embedding of `LADM.tweakH(x)` as the command sequence issued given the
current z position: no soft-limit comparison occurs, the axes are always
commanded. -/
noncomputable def tweakH (x z_now : ℝ) : List HCmd :=
  let x1_var := xTox12 x
  let x2_var := xTox12 x
  let z_var := xToz x
  if z_now < z_var then
    [HCmd.mvrZ (z_var - z_now), HCmd.waitZ, HCmd.mvrX1 x1_var, HCmd.mvrX2 x2_var]
  else
    [HCmd.mvrX1 x1_var, HCmd.mvrX2 x2_var, HCmd.waitX1, HCmd.waitX2,
     HCmd.mvrZ (z_var - z_now)]

/-- C8: an absolute horizontal target outside the cached soft-limit window
produces zero axis move commands (the trace is exactly the logged refusal),
while a relative move through `tweakH` always issues its three axis move
commands, for every input and independently of any limits. -/
theorem moveX_softlimit_refusal (x lowlimX hilimX z_now : ℝ)
    (h : x < lowlimX ∨ hilimX < x) :
    (moveX x lowlimX hilimX z_now).filter isMoveCmd = [] ∧
    moveX x lowlimX hilimX z_now = [HCmd.logRefusal] ∧
    (∀ x' z' : ℝ, ((tweakH x' z').filter isMoveCmd).length = 3) := by
  have h' : x ≤ lowlimX ∨ hilimX ≤ x := by
    rcases h with h | h
    · exact Or.inl (le_of_lt h)
    · exact Or.inr (le_of_lt h)
  have hmx : moveX x lowlimX hilimX z_now = [HCmd.logRefusal] := by
    rw [moveX]
    simp only [if_pos h']
  refine ⟨?_, hmx, ?_⟩
  · rw [hmx]
    rfl
  · intro x' z'
    rw [tweakH]
    by_cases hz : z' < xToz x'
    · simp only [if_pos hz]
      rfl
    · simp only [if_neg hz]
      rfl

/-- C8 witness: target 10 with window [0, 5] is refused with no axis moves,
and a tweak by 10 at z = 0 issues exactly three axis move commands. -/
theorem moveX_softlimit_refusal_witness :
    ((10 : ℝ) < 0 ∨ (5 : ℝ) < 10) ∧
    (moveX 10 0 5 0).filter isMoveCmd = [] ∧
    moveX 10 0 5 0 = [HCmd.logRefusal] ∧
    ((tweakH 10 0).filter isMoveCmd).length = 3 := by
  have hor : (10 : ℝ) < 0 ∨ (5 : ℝ) < 10 := Or.inr (by norm_num)
  have h := moveX_softlimit_refusal 10 0 5 0 hor
  exact ⟨hor, h.1, h.2.1, h.2.2 10 0⟩

/-- Embedding of `y1ToGamma`: vertical angle from the short rail height,
using the short rail radius r. -/
noncomputable def y1ToGamma (y1 : ℝ) : ℝ := Real.arctan (y1 / r) * 180 / Real.pi

/-- Embedding of `y2ToGamma`: vertical angle from the long rail height,
using the long rail radius R. -/
noncomputable def y2ToGamma (y2 : ℝ) : ℝ := Real.arctan (y2 / R) * 180 / Real.pi

/-- Embedding of `LADM.wmGamma` as a function of the current rail heights:
the source computes `gamma1 = y1ToGamma(self.y1.wm())` and
`gamma2 = y1ToGamma(self.y2.wm())` - both through `y1ToGamma` - and returns
`gamma2 - gamma1` (together with a printed message, not modelled). -/
noncomputable def wmGamma (y1pos y2pos : ℝ) : ℝ :=
  let gamma1 := y1ToGamma y1pos
  let gamma2 := y1ToGamma y2pos
  gamma2 - gamma1

/-- C10: evaluation at y1 = 0, y2 = 6735 showing the divergence: the code
derives the long rail's angle with the short rail's radius 2960 (through
`y1ToGamma`), so the readback differs from the value obtained by deriving
each rail's angle with its own radius (which would be 45 - 0 here). -/
theorem wmGamma_uses_short_radius_for_long_rail :
    wmGamma 0 6735 = Real.arctan (6735 / 2960) * 180 / Real.pi ∧
    wmGamma 0 6735 ≠ y2ToGamma 6735 - y1ToGamma 0 := by
  have hπ : (0 : ℝ) < Real.pi := Real.pi_pos
  have hcode : wmGamma 0 6735 = Real.arctan (6735 / 2960) * 180 / Real.pi := by
    rw [wmGamma]
    simp [y1ToGamma, r]
    norm_num
  refine ⟨hcode, ?_⟩
  have h1 : y1ToGamma 0 = 0 := by simp [y1ToGamma]
  have h2 : y2ToGamma 6735 = 45 := by
    rw [y2ToGamma, R]
    have h11 : (6735 : ℝ) / 6735.0 = 1 := by norm_num
    rw [h11, Real.arctan_one]
    field_simp
    ring
  rw [hcode, h1, h2, sub_zero]
  have hmono : Real.arctan 1 < Real.arctan (6735 / 2960) :=
    Real.arctan_strictMono (by norm_num)
  rw [Real.arctan_one] at hmono
  have h45 : Real.pi / 4 * 180 / Real.pi = 45 := by
    field_simp
    ring
  have hgt : (45 : ℝ) < Real.arctan (6735 / 2960) * 180 / Real.pi := by
    rw [← h45]
    gcongr
  exact ne_of_gt hgt

end Pcds
